import Mathlib

/-!
Verification of `go-mod-dependency-tree` (SimonRichardson/go-mod-dependency-tree).

The development shallowly embeds the two Go sources of the repository:
`dependency-tree.go` (graph/JSON output mode) and the indented-tree variant
(tree/text output mode).  Strings are modelled as `List Char` so that every
operation is structural and evaluates inside the kernel.  The filesystem is
modelled as a pure record `FS` of a stat predicate and a go.mod
reader-plus-parser; the walkers thread explicit state records in place of the
Go `module` struct's mutable maps.  Machine `int` depth counters are modelled
as `Int` (the recursion depth of a run is far below any 64-bit overflow, so
mathematical integers are faithful on all reachable inputs).
-/

/-- Strings of the embedded program, as character lists so that every string
operation below is structurally recursive and kernel-computable. -/
abbrev Str := List Char

/-- Space test used by the model of `strings.TrimSpace` (ASCII whitespace,
which covers every character of the inputs the tool reads). -/
def isSpaceChar (c : Char) : Bool :=
  c = ' ' || c = '\t' || c = '\n' || c = '\r'

/-- Model of `strings.TrimSpace`. -/
def trimSpace (s : Str) : Str :=
  ((s.dropWhile isSpaceChar).reverse.dropWhile isSpaceChar).reverse

/-- Worker for the model of `strings.Split`: scans `s` left to right; whenever
`sep` (nonempty) is a prefix of the rest, the accumulated piece is emitted and
the separator consumed.  `fuel` bounds the recursion; every step consumes at
least one character of `s`, so `s.length + 1` fuel is always enough. -/
def splitGo (sep : List Char) : Nat → List Char → List Char → List (List Char)
  | 0, acc, s => [acc.reverse ++ s]
  | fuel + 1, acc, s =>
    if !sep.isEmpty && sep.isPrefixOf s then
      acc.reverse :: splitGo sep fuel [] (s.drop sep.length)
    else
      match s with
      | [] => [acc.reverse]
      | c :: rest => splitGo sep fuel (c :: acc) rest

/-- Model of Go `strings.Split s sep`: splits around each non-overlapping,
leftmost-first instance of `sep`; an empty separator explodes the string into
its characters, exactly as `strings.Split` does for UTF-8 runes. -/
def splitOnL (sep s : List Char) : List (List Char) :=
  if sep.isEmpty then s.map (fun c => [c]) else splitGo sep (s.length + 1) [] s

/-- Model of `filepath.Join` on the path fragments this program builds: empty
components are skipped and the rest joined with a single slash (no component
the program ever joins needs the extra cleaning `filepath.Join` performs). -/
def joinParts : List Str → Str
  | [] => []
  | [p] => p
  | p :: rest => p ++ '/' :: joinParts rest

/-- Join of a component list, see `joinParts`. -/
def joinPath (parts : List Str) : Str :=
  joinParts (parts.filter (fun p => !p.isEmpty))

/-- Attempt to match the regular expression `v\d+\.\d+\.\d+` at the very start
of `s`, with the greedy digit runs Go's engine produces; returns the matched
text. -/
def semVerAt (s : List Char) : Option (List Char) :=
  match s with
  | 'v' :: rest =>
    let d1 := rest.takeWhile Char.isDigit
    let r1 := rest.dropWhile Char.isDigit
    if d1.isEmpty then none
    else
      match r1 with
      | '.' :: r2 =>
        let d2 := r2.takeWhile Char.isDigit
        let r3 := r2.dropWhile Char.isDigit
        if d2.isEmpty then none
        else
          match r3 with
          | '.' :: r4 =>
            let d3 := r4.takeWhile Char.isDigit
            if d3.isEmpty then none
            else some ('v' :: d1 ++ '.' :: d2 ++ '.' :: d3)
          | _ => none
      | _ => none
  | _ => none

/-- Leftmost match of `v\d+\.\d+\.\d+` in `s` (model of
`regexp.FindStringSubmatch` for the pattern `re` of the sources, which has no
capture groups, so the submatch slice holds just the whole match). -/
def findSemVer : List Char → Option (List Char)
  | [] => none
  | c :: rest =>
    match semVerAt (c :: rest) with
    | some m => some m
    | none => findSemVer rest

/-- Model of `getSemVer`: the first `vMAJOR.MINOR.PATCH`-shaped substring of
`version`, or the empty string when there is none. -/
def getSemVer (version : Str) : Str :=
  (findSemVer version).getD []

/-- Model of `getNameAndVersion`: splits a dependency identity of the form
`name@version` at the first `@`, otherwise of the form `name version` at the
spaces; in the space form the returned version is already reduced by
`getSemVer`, exactly as in the source. -/
def getNameAndVersion (module : Str) : Str × Str :=
  if module.contains '@' then
    let s := splitOnL ['@'] module
    (s.getD 0 [], s.getD 1 [])
  else
    let s := splitOnL [' '] module
    if s.length = 1 then (s.getD 0 [], [])
    else (s.getD 0 [], getSemVer (s.getD 1 []))

/-- Model of `escapeCapitalsInModuleName`: the name is exploded into
one-character strings and refolded, replacing every character that is changed
by lowercasing with `!` followed by its lowercase form. -/
def escapeCapitalsInModuleName (name : Str) : Str :=
  let letters := splitOnL [] name
  letters.foldl
    (fun newName letter =>
      if letter.map Char.toLower ≠ letter then
        newName ++ ('!' :: letter.map Char.toLower)
      else newName ++ letter)
    []

/-- A dependency manifest as the walker consumes it after `modfile.Parse`:
the ordered `require` list of (module path, version token) pairs. -/
structure Manifest where
  require : List (Str × Str)
deriving DecidableEq

/-- Read-only filesystem environment of a run.  `statOk p` models
`os.Stat(p)` succeeding (or failing with anything other than not-exist, which
the source also treats as found); `manifest p` models `os.ReadFile` of the
go.mod file at path `p` followed by `modfile.Parse`, with `none` for either a
read error or a parse error (the walkers treat both identically). -/
structure FS where
  statOk : Str → Bool
  manifest : Str → Option Manifest

/-- Model of `constructFilePath`: tries the flat source layout, then the
module cache keyed by the extracted semver, then the module cache keyed by the
version token as returned by `getNameAndVersion`, returning the first path
whose stat succeeds; `none` models the `("", false)` result. -/
def constructFilePath (fs : FS) (gopath : Str) (dep : Str) : Option Str :=
  let nv := getNameAndVersion dep
  let srcPath := joinPath [gopath, "src".data, nv.1]
  if fs.statOk srcPath then some srcPath
  else
    let pkgPath := joinPath [gopath, "pkg".data, "mod".data, nv.1 ++ '@' :: getSemVer nv.2]
    if fs.statOk pkgPath then some pkgPath
    else
      let fullVersionPkgPath := joinPath [gopath, "pkg".data, "mod".data, nv.1 ++ '@' :: nv.2]
      if fs.statOk fullVersionPkgPath then some fullVersionPkgPath
      else none

/-- The three candidate paths `constructFilePath` probes, in its priority
order: flat source tree, semver-keyed module cache, version-token-keyed module
cache. -/
def candidatePaths (gopath : Str) (dep : Str) : List Str :=
  let nv := getNameAndVersion dep
  [joinPath [gopath, "src".data, nv.1],
   joinPath [gopath, "pkg".data, "mod".data, nv.1 ++ '@' :: getSemVer nv.2],
   joinPath [gopath, "pkg".data, "mod".data, nv.1 ++ '@' :: nv.2]]

/-- First element of `l` whose stat succeeds in `fs`. -/
def firstExisting (fs : FS) (l : List Str) : Option Str :=
  l.find? (fun p => fs.statOk p)

/-- Dependency line as the walkers build it from a `require` entry:
`Mod.Path + " " + Mod.Version`. -/
def mkLine (req : Str × Str) : Str :=
  req.1 ++ ' ' :: req.2

/-- Insertion into a Go `map[string]struct{}` used as a set, keeping
first-insertion order as the list order. -/
def insertSet (l : List Str) (x : Str) : List Str :=
  if x ∈ l then l else l ++ [x]

/-- Lookup in a Go map modelled as an association list. -/
def lookupA {α : Type} : List (Str × α) → Str → Option α
  | [], _ => none
  | (k, v) :: rest, key => if k = key then some v else lookupA rest key

namespace Graph

/-- State of the graph-mode walker: the four maps of the `module` struct of
`dependency-tree.go`.  `packages` maps a requirer identity to its set of edge
indices, `indexes` is the identity-to-index deduplication table in assignment
order, `unknown` the set of identities not located in the cache, `cache` the
visited set in insertion order. -/
structure GraphState where
  packages : List (Str × List Nat)
  indexes : List (Str × Nat)
  unknown : List Str
  cache : List Str
deriving DecidableEq

/-- The state `main` constructs before the walk: all four maps empty. -/
def init : GraphState :=
  ⟨[], [], [], []⟩

/-- Index assignment of lines 169-173 of `dependency-tree.go`: an existing
index is reused, otherwise the next integer (the current table size) is
assigned to the line. -/
def assignIndex (indexes : List (Str × Nat)) (line : Str) : Nat × List (Str × Nat) :=
  match lookupA indexes line with
  | some i => (i, indexes)
  | none => (indexes.length, indexes ++ [(line, indexes.length)])

/-- Update of `m.packages` at lines 175-178: create the requirer's entry on
first use, then add the index to its set. -/
def addPkgIndex : List (Str × List Nat) → Str → Nat → List (Str × List Nat)
  | [], m, i => [(m, [i])]
  | (k, s) :: rest, m, i =>
    if k = m then (k, if i ∈ s then s else s ++ [i]) :: rest
    else (k, s) :: addPkgIndex rest m i

/-- One edge recording of the require loop body (lines 166-178): assign or
reuse the index of `line` and add it to `modPath`'s package set. -/
def recordEdge (st : GraphState) (modPath line : Str) : GraphState :=
  let p := assignIndex st.indexes line
  { st with indexes := p.2, packages := addPkgIndex st.packages modPath p.1 }

/-- Graph-mode `getModuleList` (lines 139-182 of `dependency-tree.go`):
visited-set check and insertion, then the depth-exhaustion check, then cache
location, manifest read and the require loop, recursing with `depth - 1`.
`fuel` is the embedding's recursion bound; a run at fuel 0 returns the state
unchanged, and every theorem below that needs it supplies enough fuel for the
walk to have finished. -/
def getModuleList (fs : FS) (gopath : Str) : Nat → GraphState → Str → Int → GraphState
  | 0, st, _, _ => st
  | fuel + 1, st, modPath, depth =>
    if modPath ∈ st.cache then st
    else
      let st1 : GraphState := { st with cache := st.cache ++ [modPath] }
      if depth = 0 then st1
      else
        match constructFilePath fs gopath (escapeCapitalsInModuleName modPath) with
        | none => { st1 with unknown := insertSet st1.unknown modPath }
        | some rawPath =>
          match fs.manifest (joinPath [rawPath, "go.mod".data]) with
          | none => st1
          | some file =>
            file.require.foldl
              (fun acc req =>
                getModuleList fs gopath fuel (recordEdge acc modPath (mkLine req))
                  (mkLine req) (depth - 1))
              st1

/-- Modelled from the spec: the graph-mode walker as §4.3 mandates it, with
the depth-exhaustion check performed before the cycle-membership check; kept
for comparison with the source order of `getModuleList`. -/
def getModuleListDepthFirst (fs : FS) (gopath : Str) : Nat → GraphState → Str → Int → GraphState
  | 0, st, _, _ => st
  | fuel + 1, st, modPath, depth =>
    if depth = 0 then st
    else if modPath ∈ st.cache then st
    else
      let st1 : GraphState := { st with cache := st.cache ++ [modPath] }
      match constructFilePath fs gopath (escapeCapitalsInModuleName modPath) with
      | none => { st1 with unknown := insertSet st1.unknown modPath }
      | some rawPath =>
        match fs.manifest (joinPath [rawPath, "go.mod".data]) with
        | none => st1
        | some file =>
          file.require.foldl
            (fun acc req =>
              getModuleListDepthFirst fs gopath fuel (recordEdge acc modPath (mkLine req))
                (mkLine req) (depth - 1))
            st1

/-- The graph-mode walker with the depth parameter and its exhaustion branch
removed; the sentinel-stability theorem shows the source walker behaves
exactly like this on every negative depth. -/
def getModuleListUnlimited (fs : FS) (gopath : Str) : Nat → GraphState → Str → GraphState
  | 0, st, _ => st
  | fuel + 1, st, modPath =>
    if modPath ∈ st.cache then st
    else
      let st1 : GraphState := { st with cache := st.cache ++ [modPath] }
      match constructFilePath fs gopath (escapeCapitalsInModuleName modPath) with
      | none => { st1 with unknown := insertSet st1.unknown modPath }
      | some rawPath =>
        match fs.manifest (joinPath [rawPath, "go.mod".data]) with
        | none => st1
        | some file =>
          file.require.foldl
            (fun acc req =>
              getModuleListUnlimited fs gopath fuel (recordEdge acc modPath (mkLine req))
                (mkLine req))
            st1

/-- The `indexes` output array built by `Flush` (lines 113-116): an array of
the table's size where each entry's index positions its identity string. -/
def flushIndexes (st : GraphState) : List Str :=
  st.indexes.foldl (fun arr kv => arr.set kv.2 kv.1) (List.replicate st.indexes.length [])

/-- The diagnostic lines `Flush` sends to standard error (lines 100-103): one
per package whose recorded index set is empty. -/
def flushDiagnostics (st : GraphState) : List Str :=
  (st.packages.filter (fun e => e.2.isEmpty)).map (fun e => e.1)

end Graph

namespace Tree

/-- State of the tree-mode walker: the visited set plus the two output
buffers, each modelled as its list of written lines. -/
structure TreeState where
  cache : List Str
  writer : List Str
  unknown : List Str
deriving DecidableEq

/-- The state `main` of the tree variant constructs: empty cache and empty
buffers. -/
def init : TreeState :=
  ⟨[], [], []⟩

/-- Model of `writeLine`: appends the line up to any `" //"` comment marker to
the main buffer; the indent argument is accepted and discarded exactly as in
the source. -/
def writeLine (st : TreeState) (_indent line : Str) : TreeState :=
  { st with writer := st.writer ++ [(splitOnL " //".data line).getD 0 []] }

/-- Model of `writeUnknownLine`: same stripping, into the unknown buffer. -/
def writeUnknownLine (st : TreeState) (line : Str) : TreeState :=
  { st with unknown := st.unknown ++ [(splitOnL " //".data line).getD 0 []] }

/-- Tree-mode `getModuleList` (lines 106-141 of the tree variant): the
depth-exhaustion check comes first and emits a leaf line, then the visited-set
check and insertion, then cache location (unknown lines on failure), the line
for the located module, manifest read and the require loop with two extra
indent spaces and `depth - 1`. -/
def getModuleList (fs : FS) (gopath : Str) : Nat → TreeState → Str → Str → Int → TreeState
  | 0, st, _, _, _ => st
  | fuel + 1, st, modPath, indent, depth =>
    if depth = 0 then writeLine st indent modPath
    else if modPath ∈ st.cache then st
    else
      let st1 : TreeState := { st with cache := st.cache ++ [modPath] }
      match constructFilePath fs gopath (escapeCapitalsInModuleName modPath) with
      | none => writeUnknownLine st1 modPath
      | some rawPath =>
        let st2 := writeLine st1 indent modPath
        match fs.manifest (joinPath [rawPath, "go.mod".data]) with
        | none => st2
        | some file =>
          file.require.foldl
            (fun acc req =>
              getModuleList fs gopath fuel acc (mkLine req) (indent ++ "  ".data) (depth - 1))
            st2

/-- The tree-mode walker with the depth parameter and its exhaustion branch
removed, for the sentinel-stability theorem. -/
def getModuleListUnlimited (fs : FS) (gopath : Str) : Nat → TreeState → Str → Str → TreeState
  | 0, st, _, _ => st
  | fuel + 1, st, modPath, indent =>
    if modPath ∈ st.cache then st
    else
      let st1 : TreeState := { st with cache := st.cache ++ [modPath] }
      match constructFilePath fs gopath (escapeCapitalsInModuleName modPath) with
      | none => writeUnknownLine st1 modPath
      | some rawPath =>
        let st2 := writeLine st1 indent modPath
        match fs.manifest (joinPath [rawPath, "go.mod".data]) with
        | none => st2
        | some file =>
          file.require.foldl
            (fun acc req =>
              getModuleListUnlimited fs gopath fuel acc (mkLine req) (indent ++ "  ".data))
            st2

/-- Result of the tree variant's `getModuleName` (lines 198-228): the module
name on success, a fatal `os.Exit(1)` on a read failure or a go.mod with no
module line, and an index-out-of-range panic when `strings.Split(cwd,
modAddress)` yields fewer than two pieces. -/
inductive ModNameResult where
  | ok (name : Str)
  | fatal
  | panicked
deriving DecidableEq

/-- Loop of `getModuleName` over the lines of go.mod: on the first trimmed
line starting with `module `, extract the address (stripping one leading and
one trailing character when it contains a quote), return it when `cwd` ends
with it, otherwise index piece 1 of `strings.Split(cwd, modAddress)` — an
out-of-range panic when the address does not occur inside `cwd`. -/
def getModuleNameLines (cwd : Str) : List Str → ModNameResult
  | [] => .fatal
  | line :: rest =>
    let l := trimSpace line
    if "module ".data.isPrefixOf l then
      let modAddress := (splitOnL "module ".data l).getD 1 []
      let modAddress := if modAddress.contains '"' then (modAddress.drop 1).dropLast else modAddress
      if modAddress.isSuffixOf cwd then .ok modAddress
      else
        match splitOnL modAddress cwd with
        | _ :: piece :: _ => .ok (modAddress ++ piece)
        | _ => .panicked
    else getModuleNameLines cwd rest

/-- Model of the tree variant's `getModuleName`: `content` is the result of
reading `cwd/go.mod` (`none` on a read error, which exits fatally), and the
line loop above scans the file split on newlines. -/
def getModuleName (cwd : Str) (content : Option Str) : ModNameResult :=
  match content with
  | none => .fatal
  | some text => getModuleNameLines cwd (splitOnL "\n".data text)

end Tree

/-! Concrete run environments used by the testable-property theorems. -/

/-- GOPATH of every concrete run below. -/
def goRoot : Str := "/go".data

/-- Identity `a v1.0.0`. -/
def aLine : Str := "a v1.0.0".data

/-- Identity `b v1.0.0`. -/
def bLine : Str := "b v1.0.0".data

/-- Identity `c v1.0.0`. -/
def cLine : Str := "c v1.0.0".data

/-- Identity `d v1.0.0`. -/
def dLine : Str := "d v1.0.0".data

/-- Version token used by the synthetic manifests. -/
def vTok : Str := "v1.0.0".data

/-- Cyclic two-module environment: `b` requires `c` and `c` requires `b`,
both present under the flat source layout. -/
def cycleFS : FS where
  statOk := fun p => p == "/go/src/b".data || p == "/go/src/c".data
  manifest := fun p =>
    if p = "/go/src/b/go.mod".data then some ⟨[("c".data, vTok)]⟩
    else if p = "/go/src/c/go.mod".data then some ⟨[("b".data, vTok)]⟩
    else none

/-- Diamond environment: `a` requires `b` and `c`, both of which require
`d`, which has no requirements; all four are present. -/
def diamondFS : FS where
  statOk := fun p =>
    p == "/go/src/a".data || p == "/go/src/b".data ||
    p == "/go/src/c".data || p == "/go/src/d".data
  manifest := fun p =>
    if p = "/go/src/a/go.mod".data then some ⟨[("b".data, vTok), ("c".data, vTok)]⟩
    else if p = "/go/src/b/go.mod".data then some ⟨[("d".data, vTok)]⟩
    else if p = "/go/src/c/go.mod".data then some ⟨[("d".data, vTok)]⟩
    else if p = "/go/src/d/go.mod".data then some ⟨[]⟩
    else none

/-- Three-module chain `a → b → c`, all present, `c` with no requirements. -/
def chain3FS : FS where
  statOk := fun p =>
    p == "/go/src/a".data || p == "/go/src/b".data || p == "/go/src/c".data
  manifest := fun p =>
    if p = "/go/src/a/go.mod".data then some ⟨[("b".data, vTok)]⟩
    else if p = "/go/src/b/go.mod".data then some ⟨[("c".data, vTok)]⟩
    else if p = "/go/src/c/go.mod".data then some ⟨[]⟩
    else none

/-- Environment distinguishing the check orders: `r` requires `a` then `c`,
`a` requires `c`, `c` requires `d`; `d` is absent from the cache. -/
def orderFS : FS where
  statOk := fun p =>
    p == "/go/src/r".data || p == "/go/src/a".data || p == "/go/src/c".data
  manifest := fun p =>
    if p = "/go/src/r/go.mod".data then some ⟨[("a".data, vTok), ("c".data, vTok)]⟩
    else if p = "/go/src/a/go.mod".data then some ⟨[("c".data, vTok)]⟩
    else if p = "/go/src/c/go.mod".data then some ⟨[("d".data, vTok)]⟩
    else none

/-- Identity `r v1.0.0`. -/
def rLine : Str := "r v1.0.0".data

/-- Identity `x v1.0.0`. -/
def xLine : Str := "x v1.0.0".data

/-- Environment for the empty-requirer behavior: `r` requires `x`; `x` is
located in the cache but its own go.mod cannot be read or parsed. -/
def unreadableFS : FS where
  statOk := fun p => p == "/go/src/r".data || p == "/go/src/x".data
  manifest := fun p =>
    if p = "/go/src/r/go.mod".data then some ⟨[("x".data, vTok)]⟩
    else none

/-- Name of the `i`-th chain module, `m<i>`. -/
def chainName (i : Nat) : Str :=
  'm' :: Nat.toDigits 10 i

/-- Flat source path of the `i`-th chain module. -/
def chainSrc (i : Nat) : Str :=
  "/go/src/".data ++ chainName i

/-- Identity line of the `i`-th chain module. -/
def chainLine (i : Nat) : Str :=
  chainName i ++ ' ' :: vTok

/-- Fifty-module chain environment: `m1` requires `m2`, … , `m49` requires
`m50`, and `m50` has no requirements. -/
def chain50FS : FS where
  statOk := fun p => (List.range 50).any (fun i => p == chainSrc (i + 1))
  manifest := fun p =>
    (List.range 50).findSome? (fun i =>
      if p = joinPath [chainSrc (i + 1), "go.mod".data] then
        some ⟨if i + 1 < 50 then [(chainName (i + 2), vTok)] else []⟩
      else none)

/-- Environment in which every stat succeeds (and no manifest is readable). -/
def allFS : FS where
  statOk := fun _ => true
  manifest := fun _ => none

/-! Unfolding lemmas for the walkers, one per control-flow outcome of a call,
and generic preservation lemmas built from them. -/

namespace Graph

/-- Unfolding: an already-visited identity returns the state unchanged,
whatever the depth. -/
theorem step_cached (fs : FS) (gopath : Str) (fuel : Nat) (st : GraphState)
    (m : Str) (d : Int) (hm : m ∈ st.cache) :
    getModuleList fs gopath (fuel + 1) st m d = st := by
  simp [getModuleList, hm]

/-- Unfolding: at the exact depth cutoff a fresh identity is inserted into
the visited set and nothing else happens. -/
theorem step_depth (fs : FS) (gopath : Str) (fuel : Nat) (st : GraphState)
    (m : Str) (hm : m ∉ st.cache) :
    getModuleList fs gopath (fuel + 1) st m 0 = { st with cache := st.cache ++ [m] } := by
  simp [getModuleList, hm]

/-- Unfolding: a fresh identity that cannot be located is recorded as
unknown after being marked visited. -/
theorem step_unknown (fs : FS) (gopath : Str) (fuel : Nat) (st : GraphState)
    (m : Str) (d : Int) (hm : m ∉ st.cache) (hd : d ≠ 0)
    (hp : constructFilePath fs gopath (escapeCapitalsInModuleName m) = none) :
    getModuleList fs gopath (fuel + 1) st m d =
      { st with cache := st.cache ++ [m],
                unknown := insertSet st.unknown m } := by
  simp [getModuleList, hm, hd, hp]

/-- Unfolding: a located identity whose manifest cannot be read or parsed
stops after the visited-set insertion. -/
theorem step_noManifest (fs : FS) (gopath : Str) (fuel : Nat) (st : GraphState)
    (m : Str) (d : Int) (rawPath : Str) (hm : m ∉ st.cache) (hd : d ≠ 0)
    (hp : constructFilePath fs gopath (escapeCapitalsInModuleName m) = some rawPath)
    (hf : fs.manifest (joinPath [rawPath, "go.mod".data]) = none) :
    getModuleList fs gopath (fuel + 1) st m d = { st with cache := st.cache ++ [m] } := by
  simp [getModuleList, hm, hd, hp, hf]

/-- Unfolding: a fresh, located, readable identity runs the require loop at
`d - 1` from the visited-marked state. -/
theorem step_expand (fs : FS) (gopath : Str) (fuel : Nat) (st : GraphState)
    (m : Str) (d : Int) (rawPath : Str) (file : Manifest)
    (hm : m ∉ st.cache) (hd : d ≠ 0)
    (hp : constructFilePath fs gopath (escapeCapitalsInModuleName m) = some rawPath)
    (hf : fs.manifest (joinPath [rawPath, "go.mod".data]) = some file) :
    getModuleList fs gopath (fuel + 1) st m d =
      file.require.foldl
        (fun acc req =>
          getModuleList fs gopath fuel (recordEdge acc m (mkLine req)) (mkLine req) (d - 1))
        { st with cache := st.cache ++ [m] } := by
  simp [getModuleList, hm, hd, hp, hf]

/-- Any property of the graph state preserved by the three primitive updates
of the walker (visited-set insertion, unknown recording, edge recording) is
preserved by a whole walk. -/
theorem walk_preserves (fs : FS) (gopath : Str) (P : GraphState → Prop)
    (H1 : ∀ st m, P st → m ∉ st.cache → P { st with cache := st.cache ++ [m] })
    (H2 : ∀ st m, P st → P { st with unknown := insertSet st.unknown m })
    (H3 : ∀ st m line, P st → P (recordEdge st m line)) :
    ∀ fuel st modPath depth, P st → P (getModuleList fs gopath fuel st modPath depth) := by
  intro fuel
  induction fuel with
  | zero => intro st m d h; exact h
  | succ n ih =>
    intro st m d h
    by_cases hc : m ∈ st.cache
    · rw [step_cached fs gopath n st m d hc]; exact h
    · have h1 : P { st with cache := st.cache ++ [m] } := H1 st m h hc
      by_cases hd : d = 0
      · subst hd; rw [step_depth fs gopath n st m hc]; exact h1
      · cases hp : constructFilePath fs gopath (escapeCapitalsInModuleName m) with
        | none =>
          rw [step_unknown fs gopath n st m d hc hd hp]
          exact H2 { st with cache := st.cache ++ [m] } m h1
        | some rawPath =>
          cases hf : fs.manifest (joinPath [rawPath, "go.mod".data]) with
          | none => rw [step_noManifest fs gopath n st m d rawPath hc hd hp hf]; exact h1
          | some file =>
            rw [step_expand fs gopath n st m d rawPath file hc hd hp hf]
            have aux : ∀ (reqs : List (Str × Str)) st', P st' →
                P (reqs.foldl
                  (fun acc req =>
                    getModuleList fs gopath n (recordEdge acc m (mkLine req))
                      (mkLine req) (d - 1))
                  st') := by
              intro reqs
              induction reqs with
              | nil => intro st' h'; exact h'
              | cons r rs ihr =>
                intro st' h'
                simp only [List.foldl_cons]
                exact ihr _ (ih _ _ _ (H3 _ _ _ h'))
            exact aux file.require _ h1

/-- Unfolding of the depth-free walker on an already-visited identity. -/
theorem unlimited_cached (fs : FS) (gopath : Str) (fuel : Nat) (st : GraphState)
    (m : Str) (hm : m ∈ st.cache) :
    getModuleListUnlimited fs gopath (fuel + 1) st m = st := by
  simp [getModuleListUnlimited, hm]

/-- Unfolding of the depth-free walker on an unlocatable identity. -/
theorem unlimited_unknown (fs : FS) (gopath : Str) (fuel : Nat) (st : GraphState)
    (m : Str) (hm : m ∉ st.cache)
    (hp : constructFilePath fs gopath (escapeCapitalsInModuleName m) = none) :
    getModuleListUnlimited fs gopath (fuel + 1) st m =
      { st with cache := st.cache ++ [m],
                unknown := insertSet st.unknown m } := by
  simp [getModuleListUnlimited, hm, hp]

/-- Unfolding of the depth-free walker when the manifest is unreadable. -/
theorem unlimited_noManifest (fs : FS) (gopath : Str) (fuel : Nat) (st : GraphState)
    (m : Str) (rawPath : Str) (hm : m ∉ st.cache)
    (hp : constructFilePath fs gopath (escapeCapitalsInModuleName m) = some rawPath)
    (hf : fs.manifest (joinPath [rawPath, "go.mod".data]) = none) :
    getModuleListUnlimited fs gopath (fuel + 1) st m = { st with cache := st.cache ++ [m] } := by
  simp [getModuleListUnlimited, hm, hp, hf]

/-- Unfolding of the depth-free walker through the require loop. -/
theorem unlimited_expand (fs : FS) (gopath : Str) (fuel : Nat) (st : GraphState)
    (m : Str) (rawPath : Str) (file : Manifest) (hm : m ∉ st.cache)
    (hp : constructFilePath fs gopath (escapeCapitalsInModuleName m) = some rawPath)
    (hf : fs.manifest (joinPath [rawPath, "go.mod".data]) = some file) :
    getModuleListUnlimited fs gopath (fuel + 1) st m =
      file.require.foldl
        (fun acc req =>
          getModuleListUnlimited fs gopath fuel (recordEdge acc m (mkLine req)) (mkLine req))
        { st with cache := st.cache ++ [m] } := by
  simp [getModuleListUnlimited, hm, hp, hf]

/-- On any negative depth the walker coincides with the depth-free walker:
the depth-exhaustion branch is never taken at any recursion level. -/
theorem negative_depth_eq_unlimited (fs : FS) (gopath : Str) :
    ∀ fuel st modPath (depth : Int), depth < 0 →
      getModuleList fs gopath fuel st modPath depth =
        getModuleListUnlimited fs gopath fuel st modPath := by
  intro fuel
  induction fuel with
  | zero => intro st m d _; rfl
  | succ n ih =>
    intro st m d hd
    have hd0 : d ≠ 0 := by omega
    by_cases hc : m ∈ st.cache
    · rw [step_cached fs gopath n st m d hc, unlimited_cached fs gopath n st m hc]
    · cases hp : constructFilePath fs gopath (escapeCapitalsInModuleName m) with
      | none =>
        rw [step_unknown fs gopath n st m d hc hd0 hp, unlimited_unknown fs gopath n st m hc hp]
      | some rawPath =>
        cases hf : fs.manifest (joinPath [rawPath, "go.mod".data]) with
        | none =>
          rw [step_noManifest fs gopath n st m d rawPath hc hd0 hp hf,
            unlimited_noManifest fs gopath n st m rawPath hc hp hf]
        | some file =>
          rw [step_expand fs gopath n st m d rawPath file hc hd0 hp hf,
            unlimited_expand fs gopath n st m rawPath file hc hp hf]
          have aux : ∀ (reqs : List (Str × Str)) st',
              reqs.foldl
                (fun acc req =>
                  getModuleList fs gopath n (recordEdge acc m (mkLine req))
                    (mkLine req) (d - 1)) st' =
              reqs.foldl
                (fun acc req =>
                  getModuleListUnlimited fs gopath n (recordEdge acc m (mkLine req))
                    (mkLine req)) st' := by
            intro reqs
            induction reqs with
            | nil => intro st'; rfl
            | cons r rs ihr =>
              intro st'
              simp only [List.foldl_cons]
              rw [ih _ _ _ (by omega : d - 1 < 0)]
              exact ihr _
          exact aux file.require _

end Graph

namespace Tree

/-- Unfolding of the tree walker at the exact depth cutoff: the identity is
emitted as a leaf line before any visited-set consultation. -/
theorem step_depth_tree (fs : FS) (gopath : Str) (fuel : Nat) (st : TreeState)
    (m indent : Str) :
    getModuleList fs gopath (fuel + 1) st m indent 0 = writeLine st indent m := by
  simp [getModuleList]

/-- Unfolding of the tree walker on an already-visited identity away from
the cutoff. -/
theorem step_cached_tree (fs : FS) (gopath : Str) (fuel : Nat) (st : TreeState)
    (m indent : Str) (d : Int) (hd : d ≠ 0) (hm : m ∈ st.cache) :
    getModuleList fs gopath (fuel + 1) st m indent d = st := by
  simp [getModuleList, hd, hm]

/-- Unfolding of the tree walker on an unlocatable identity: an unknown line
after the visited-set insertion. -/
theorem step_unknown_tree (fs : FS) (gopath : Str) (fuel : Nat) (st : TreeState)
    (m indent : Str) (d : Int) (hd : d ≠ 0) (hm : m ∉ st.cache)
    (hp : constructFilePath fs gopath (escapeCapitalsInModuleName m) = none) :
    getModuleList fs gopath (fuel + 1) st m indent d =
      writeUnknownLine { st with cache := st.cache ++ [m] } m := by
  simp [getModuleList, hd, hm, hp]

/-- Unfolding of the tree walker when the manifest is unreadable: the line
is still written before the read is attempted. -/
theorem step_noManifest_tree (fs : FS) (gopath : Str) (fuel : Nat) (st : TreeState)
    (m indent : Str) (d : Int) (rawPath : Str) (hd : d ≠ 0) (hm : m ∉ st.cache)
    (hp : constructFilePath fs gopath (escapeCapitalsInModuleName m) = some rawPath)
    (hf : fs.manifest (joinPath [rawPath, "go.mod".data]) = none) :
    getModuleList fs gopath (fuel + 1) st m indent d =
      writeLine { st with cache := st.cache ++ [m] } indent m := by
  simp [getModuleList, hd, hm, hp, hf]

/-- Unfolding of the tree walker through the require loop, at `d - 1` and two
more indent spaces. -/
theorem step_expand_tree (fs : FS) (gopath : Str) (fuel : Nat) (st : TreeState)
    (m indent : Str) (d : Int) (rawPath : Str) (file : Manifest)
    (hd : d ≠ 0) (hm : m ∉ st.cache)
    (hp : constructFilePath fs gopath (escapeCapitalsInModuleName m) = some rawPath)
    (hf : fs.manifest (joinPath [rawPath, "go.mod".data]) = some file) :
    getModuleList fs gopath (fuel + 1) st m indent d =
      file.require.foldl
        (fun acc req =>
          getModuleList fs gopath fuel acc (mkLine req) (indent ++ "  ".data) (d - 1))
        (writeLine { st with cache := st.cache ++ [m] } indent m) := by
  simp [getModuleList, hd, hm, hp, hf]

/-- Any property of the tree state preserved by line emission, unknown-line
emission and visited-set insertion is preserved by a whole walk. -/
theorem walk_preserves_tree (fs : FS) (gopath : Str) (P : TreeState → Prop)
    (H1 : ∀ st m, P st → m ∉ st.cache → P { st with cache := st.cache ++ [m] })
    (HW : ∀ st ind line, P st → P (writeLine st ind line))
    (HU : ∀ st line, P st → P (writeUnknownLine st line)) :
    ∀ fuel st modPath indent depth,
      P st → P (getModuleList fs gopath fuel st modPath indent depth) := by
  intro fuel
  induction fuel with
  | zero => intro st m ind d h; exact h
  | succ n ih =>
    intro st m ind d h
    by_cases hd : d = 0
    · subst hd; rw [step_depth_tree fs gopath n st m ind]; exact HW _ _ _ h
    · by_cases hc : m ∈ st.cache
      · rw [step_cached_tree fs gopath n st m ind d hd hc]; exact h
      · have h1 : P { st with cache := st.cache ++ [m] } := H1 st m h hc
        cases hp : constructFilePath fs gopath (escapeCapitalsInModuleName m) with
        | none => rw [step_unknown_tree fs gopath n st m ind d hd hc hp]; exact HU _ _ h1
        | some rawPath =>
          have h2 : P (writeLine { st with cache := st.cache ++ [m] } ind m) := HW _ _ _ h1
          cases hf : fs.manifest (joinPath [rawPath, "go.mod".data]) with
          | none => rw [step_noManifest_tree fs gopath n st m ind d rawPath hd hc hp hf]; exact h2
          | some file =>
            rw [step_expand_tree fs gopath n st m ind d rawPath file hd hc hp hf]
            have aux : ∀ (reqs : List (Str × Str)) st', P st' →
                P (reqs.foldl
                  (fun acc req =>
                    getModuleList fs gopath n acc (mkLine req) (ind ++ "  ".data) (d - 1))
                  st') := by
              intro reqs
              induction reqs with
              | nil => intro st' h'; exact h'
              | cons r rs ihr =>
                intro st' h'
                simp only [List.foldl_cons]
                exact ihr _ (ih _ _ _ _ h')
            exact aux file.require _ h2

/-- Unfolding of the depth-free tree walker on a visited identity. -/
theorem unlimited_cached_tree (fs : FS) (gopath : Str) (fuel : Nat) (st : TreeState)
    (m indent : Str) (hm : m ∈ st.cache) :
    getModuleListUnlimited fs gopath (fuel + 1) st m indent = st := by
  simp [getModuleListUnlimited, hm]

/-- Unfolding of the depth-free tree walker on an unlocatable identity. -/
theorem unlimited_unknown_tree (fs : FS) (gopath : Str) (fuel : Nat) (st : TreeState)
    (m indent : Str) (hm : m ∉ st.cache)
    (hp : constructFilePath fs gopath (escapeCapitalsInModuleName m) = none) :
    getModuleListUnlimited fs gopath (fuel + 1) st m indent =
      writeUnknownLine { st with cache := st.cache ++ [m] } m := by
  simp [getModuleListUnlimited, hm, hp]

/-- Unfolding of the depth-free tree walker when the manifest is
unreadable. -/
theorem unlimited_noManifest_tree (fs : FS) (gopath : Str) (fuel : Nat) (st : TreeState)
    (m indent : Str) (rawPath : Str) (hm : m ∉ st.cache)
    (hp : constructFilePath fs gopath (escapeCapitalsInModuleName m) = some rawPath)
    (hf : fs.manifest (joinPath [rawPath, "go.mod".data]) = none) :
    getModuleListUnlimited fs gopath (fuel + 1) st m indent =
      writeLine { st with cache := st.cache ++ [m] } indent m := by
  simp [getModuleListUnlimited, hm, hp, hf]

/-- Unfolding of the depth-free tree walker through the require loop. -/
theorem unlimited_expand_tree (fs : FS) (gopath : Str) (fuel : Nat) (st : TreeState)
    (m indent : Str) (rawPath : Str) (file : Manifest) (hm : m ∉ st.cache)
    (hp : constructFilePath fs gopath (escapeCapitalsInModuleName m) = some rawPath)
    (hf : fs.manifest (joinPath [rawPath, "go.mod".data]) = some file) :
    getModuleListUnlimited fs gopath (fuel + 1) st m indent =
      file.require.foldl
        (fun acc req =>
          getModuleListUnlimited fs gopath fuel acc (mkLine req) (indent ++ "  ".data))
        (writeLine { st with cache := st.cache ++ [m] } indent m) := by
  simp [getModuleListUnlimited, hm, hp, hf]

/-- On any negative depth the tree walker coincides with its depth-free
variant: the depth-exhaustion branch is never taken at any recursion
level. -/
theorem negative_depth_eq_unlimited_tree (fs : FS) (gopath : Str) :
    ∀ fuel st modPath indent (depth : Int), depth < 0 →
      getModuleList fs gopath fuel st modPath indent depth =
        getModuleListUnlimited fs gopath fuel st modPath indent := by
  intro fuel
  induction fuel with
  | zero => intro st m ind d _; rfl
  | succ n ih =>
    intro st m ind d hd
    have hd0 : d ≠ 0 := by omega
    by_cases hc : m ∈ st.cache
    · rw [step_cached_tree fs gopath n st m ind d hd0 hc, unlimited_cached_tree fs gopath n st m ind hc]
    · cases hp : constructFilePath fs gopath (escapeCapitalsInModuleName m) with
      | none =>
        rw [step_unknown_tree fs gopath n st m ind d hd0 hc hp,
          unlimited_unknown_tree fs gopath n st m ind hc hp]
      | some rawPath =>
        cases hf : fs.manifest (joinPath [rawPath, "go.mod".data]) with
        | none =>
          rw [step_noManifest_tree fs gopath n st m ind d rawPath hd0 hc hp hf,
            unlimited_noManifest_tree fs gopath n st m ind rawPath hc hp hf]
        | some file =>
          rw [step_expand_tree fs gopath n st m ind d rawPath file hd0 hc hp hf,
            unlimited_expand_tree fs gopath n st m ind rawPath file hc hp hf]
          have aux : ∀ (reqs : List (Str × Str)) st',
              reqs.foldl
                (fun acc req =>
                  getModuleList fs gopath n acc (mkLine req) (ind ++ "  ".data) (d - 1)) st' =
              reqs.foldl
                (fun acc req =>
                  getModuleListUnlimited fs gopath n acc (mkLine req) (ind ++ "  ".data)) st' := by
            intro reqs
            induction reqs with
            | nil => intro st'; rfl
            | cons r rs ihr =>
              intro st'
              simp only [List.foldl_cons]
              rw [ih _ _ _ _ (by omega : d - 1 < 0)]
              exact ihr _
          exact aux file.require _

end Tree

/-! Lemmas about the index table, the flush output and the escaping. -/

namespace Graph

/-- Well-formedness of the deduplication table: the assigned indices are
exactly 0, 1, 2, … in assignment order, and no identity occurs twice. -/
def IndexesWF (l : List (Str × Nat)) : Prop :=
  l.map Prod.snd = List.range l.length ∧ (l.map Prod.fst).Nodup

/-- A failed lookup means the key is absent. -/
theorem lookupA_none_notMem {α : Type} (l : List (Str × α)) (k : Str)
    (h : lookupA l k = none) : k ∉ l.map Prod.fst := by
  induction l with
  | nil => simp
  | cons e rest ih =>
    obtain ⟨k0, v0⟩ := e
    simp only [lookupA] at h
    by_cases he : k0 = k
    · rw [if_pos he] at h; exact Option.noConfusion h
    · rw [if_neg he] at h
      simp only [List.map_cons, List.mem_cons]
      rintro (rfl | hk)
      · exact he rfl
      · exact ih h hk

/-- Index assignment preserves well-formedness of the table. -/
theorem assignIndex_wf (l : List (Str × Nat)) (line : Str) (h : IndexesWF l) :
    IndexesWF (assignIndex l line).2 := by
  unfold assignIndex
  cases hl : lookupA l line with
  | some i => exact h
  | none =>
    obtain ⟨hsnd, hfst⟩ := h
    constructor
    · simp [hsnd, List.range_succ]
    · have hnm : line ∉ l.map Prod.fst := lookupA_none_notMem l line hl
      simp [List.nodup_append, hfst, hnm]

/-- Index assignment only ever appends to the table. -/
theorem assignIndex_prefix (l : List (Str × Nat)) (line : Str) :
    l <+: (assignIndex l line).2 := by
  unfold assignIndex
  cases lookupA l line with
  | some i => exact List.prefix_refl l
  | none => exact ⟨[(line, l.length)], rfl⟩

/-- Every entry of the package map keeps a nonempty index set through an
edge recording; the newly created entry holds the one index just added. -/
theorem addPkgIndex_nonempty (pkgs : List (Str × List Nat)) (m : Str) (i : Nat)
    (h : ∀ e ∈ pkgs, e.2 ≠ []) : ∀ e ∈ addPkgIndex pkgs m i, e.2 ≠ [] := by
  induction pkgs with
  | nil => simp [addPkgIndex]
  | cons p rest ih =>
    cases p with
    | mk k s =>
      by_cases hk : k = m
      · simp only [addPkgIndex, if_pos hk]
        intro e he
        rcases List.mem_cons.mp he with rfl | hmem
        · by_cases hi : i ∈ s
          · simpa [hi] using h (k, s) (by simp)
          · simp [hi]
        · exact h e (List.mem_cons_of_mem _ hmem)
      · simp only [addPkgIndex, if_neg hk]
        intro e he
        rcases List.mem_cons.mp he with rfl | hmem
        · exact h (k, s) (by simp)
        · exact ih (fun e' he' => h e' (List.mem_cons_of_mem _ he')) e hmem

/-- With every package entry nonempty, `Flush` emits no diagnostic line. -/
theorem flushDiagnostics_eq_nil (st : GraphState) (h : ∀ e ∈ st.packages, e.2 ≠ []) :
    flushDiagnostics st = [] := by
  unfold flushDiagnostics
  have hf : st.packages.filter (fun e => e.2.isEmpty) = [] := by
    rw [List.filter_eq_nil_iff]
    intro e he
    simp [List.isEmpty_iff, h e he]
  rw [hf]
  rfl

/-- Filling an array by `arr[index] = pkg` over entries whose indices are
consecutive from `n0` rewrites the tail of the array with the entry keys. -/
theorem foldl_set_eq (l : List (Str × Nat)) : ∀ (n0 : Nat) (arr : List Str),
    l.map Prod.snd = List.range' n0 l.length → arr.length = n0 + l.length →
    l.foldl (fun a kv => a.set kv.2 kv.1) arr = arr.take n0 ++ l.map Prod.fst := by
  induction l with
  | nil =>
    intro n0 arr _ hlen
    simp only [List.length_nil, Nat.add_zero] at hlen
    simp only [List.foldl_nil, List.map_nil, List.append_nil]
    exact (List.take_of_length_le (le_of_eq hlen)).symm
  | cons kv rest ih =>
    intro n0 arr hsnd hlen
    obtain ⟨k, v⟩ := kv
    simp only [List.map_cons, List.length_cons, List.range'_succ] at hsnd
    injection hsnd with hv hrest
    simp only [List.length_cons] at hlen
    subst hv
    have hlt : v < arr.length := by omega
    simp only [List.foldl_cons]
    have harr' : (arr.set v k).length = (v + 1) + rest.length := by
      rw [List.length_set]; omega
    rw [ih (v + 1) (arr.set v k) hrest harr']
    have hlentake : (arr.take v).length = v := by
      rw [List.length_take]; omega
    have htake : (arr.set v k).take (v + 1) = arr.take v ++ [k] := by
      rw [List.set_eq_take_cons_drop k hlt]
      calc (arr.take v ++ k :: arr.drop (v + 1)).take (v + 1)
          = (arr.take v ++ k :: arr.drop (v + 1)).take ((arr.take v).length + 1) := by
            rw [hlentake]
        _ = arr.take v ++ (k :: arr.drop (v + 1)).take 1 := List.take_append 1
        _ = arr.take v ++ [k] := by simp
    rw [htake]
    simp

/-- On a well-formed table, the `indexes` array `Flush` builds is the table's
key list in assignment order: position `i` holds exactly the identity that
was assigned index `i`. -/
theorem flushIndexes_eq (st : GraphState) (h : IndexesWF st.indexes) :
    flushIndexes st = st.indexes.map Prod.fst := by
  unfold flushIndexes
  rw [foldl_set_eq st.indexes 0 (List.replicate st.indexes.length [])
    (by simpa [List.range_eq_range'] using h.1) (by simp)]
  simp

end Graph

/-- Character-level reading of the escaping: every character changed by
lowercasing contributes the marker plus its lowercase form, every other
character contributes itself. -/
theorem escapeCapitals_eq_flatten (name : Str) :
    escapeCapitalsInModuleName name =
      (name.map (fun c => if c.toLower ≠ c then ['!', c.toLower] else [c])).flatten := by
  unfold escapeCapitalsInModuleName
  have hsplit : splitOnL [] name = name.map (fun c => [c]) := by simp [splitOnL]
  rw [hsplit]
  have aux : ∀ (l : List Char) (acc : Str),
      (l.map (fun c => [c])).foldl
        (fun newName letter =>
          if letter.map Char.toLower ≠ letter then
            newName ++ ('!' :: letter.map Char.toLower)
          else newName ++ letter) acc =
      acc ++ (l.map (fun c => if c.toLower ≠ c then ['!', c.toLower] else [c])).flatten := by
    intro l
    induction l with
    | nil => intro acc; simp
    | cons c cs ih =>
      intro acc
      simp only [List.map_cons, List.map_nil, List.foldl_cons, List.flatten_cons]
      by_cases hc : c.toLower = c
      · have h1 : ([c.toLower] : List Char) = [c] := by simp [hc]
        rw [if_neg (not_not_intro h1), if_neg (not_not_intro hc), ih]
        simp
      · have h1 : ([c.toLower] : List Char) ≠ [c] := by simp [hc]
        rw [if_pos h1, if_pos hc, ih]
        simp
  rw [aux]
  simp

/-! Theorems settling the claims. -/

/-- C5: for every dependency identity the cache locator probes exactly the
three candidate paths in fixed priority order — flat source, semver-keyed
module cache, version-token-keyed module cache — and returns the first whose
stat succeeds, with `none` (found = false) when none exists; in particular
when the flat source path exists it is returned, beating any versioned cache
path.  The locator is a pure function of the read-only `FS`, so it creates
and mutates nothing. -/
theorem c5_locator_first_existing :
    (∀ (fs : FS) (gopath dep : Str),
      constructFilePath fs gopath dep = firstExisting fs (candidatePaths gopath dep)) ∧
    (∀ (fs : FS) (gopath dep : Str),
      fs.statOk (joinPath [gopath, "src".data, (getNameAndVersion dep).1]) = true →
      constructFilePath fs gopath dep =
        some (joinPath [gopath, "src".data, (getNameAndVersion dep).1])) := by
  constructor
  · intro fs gopath dep
    unfold constructFilePath candidatePaths firstExisting
    cases h1 : fs.statOk (joinPath [gopath, "src".data, (getNameAndVersion dep).1]) <;>
      cases h2 : fs.statOk (joinPath [gopath, "pkg".data, "mod".data,
        (getNameAndVersion dep).1 ++ '@' :: getSemVer (getNameAndVersion dep).2]) <;>
        cases h3 : fs.statOk (joinPath [gopath, "pkg".data, "mod".data,
          (getNameAndVersion dep).1 ++ '@' :: (getNameAndVersion dep).2]) <;>
          simp [h1, h2, h3]
  · intro fs gopath dep h
    unfold constructFilePath
    simp [h]

/-- Witness for C5 at a concrete input: with every stat succeeding, the
locator returns the flat source path of the identity `a v1.0.0`. -/
theorem c5_locator_first_existing_witness :
    constructFilePath allFS goRoot aLine =
      some (joinPath [goRoot, "src".data, (getNameAndVersion aLine).1]) :=
  c5_locator_first_existing.2 allFS goRoot aLine (by decide)

/-- C7: the identity is normalized before any cache path is built by the
case-escaping pass: every character changed by lowercasing — exactly the
uppercase letters — is replaced by the fixed marker `!` followed by its
lowercase form, and every other character is kept; `github.com/Foo/bar`
becomes `github.com/!foo/bar`, and the walker's first candidate cache path
for the identity `github.com/Foo/bar v1.0.0` is built from the escaped
name. -/
theorem c7_escape_capitals :
    (∀ name : Str, escapeCapitalsInModuleName name =
      (name.map (fun c => if c.toLower ≠ c then ['!', c.toLower] else [c])).flatten) ∧
    escapeCapitalsInModuleName "github.com/Foo/bar".data = "github.com/!foo/bar".data ∧
    (candidatePaths goRoot
      (escapeCapitalsInModuleName "github.com/Foo/bar v1.0.0".data)).getD 0 [] =
      "/go/src/github.com/!foo/bar".data :=
  ⟨escapeCapitals_eq_flatten, by decide, by decide⟩

/-- C8 (failing-input evidence): for the space-form identity
`example.com/m v0.0.0-20190101000000-abcdef123456` the declared version is
reduced to `v0.0.0` already by `getNameAndVersion`, so the third cache-layout
attempt probes `/go/pkg/mod/example.com/m@v0.0.0` — identical to the second
attempt and not the raw pseudo-version path the claim describes; only the
`name@version` input form keeps the raw token for the third attempt. -/
theorem c8_third_attempt_not_raw :
    getNameAndVersion "example.com/m v0.0.0-20190101000000-abcdef123456".data =
      ("example.com/m".data, "v0.0.0".data) ∧
    candidatePaths goRoot "example.com/m v0.0.0-20190101000000-abcdef123456".data =
      ["/go/src/example.com/m".data,
       "/go/pkg/mod/example.com/m@v0.0.0".data,
       "/go/pkg/mod/example.com/m@v0.0.0".data] ∧
    (candidatePaths goRoot "example.com/m v0.0.0-20190101000000-abcdef123456".data).getD 2 []
      ≠ "/go/pkg/mod/example.com/m@v0.0.0-20190101000000-abcdef123456".data ∧
    (candidatePaths goRoot "example.com/m@v0.0.0-20190101000000-abcdef123456".data).getD 2 []
      = "/go/pkg/mod/example.com/m@v0.0.0-20190101000000-abcdef123456".data :=
  ⟨by decide, by decide, by decide, by decide⟩

/-- C10: on a project root that neither ends with nor contains the module
path declared in its go.mod, the tree variant's `getModuleName` hits the
out-of-range index `strings.Split(cwd, modAddress)[1]` and panics, while the
same go.mod under a conforming root yields the declared name. -/
theorem c10_getModuleName_panics :
    Tree.getModuleName "/home/elsewhere".data (some "module github.com/foo/bar".data) =
      Tree.ModNameResult.panicked ∧
    ("github.com/foo/bar".data.isSuffixOf "/home/elsewhere".data) = false ∧
    ¬ ("github.com/foo/bar".data <:+: "/home/elsewhere".data) ∧
    Tree.getModuleName "/home/u/github.com/foo/bar".data
      (some "module github.com/foo/bar".data) =
      Tree.ModNameResult.ok "github.com/foo/bar".data :=
  ⟨by decide, by decide, by decide, by decide⟩

/-- C6 (counterexample): the graph-mode walker does not check
depth-exhaustion before cycle-membership: on the environment `r → a, c`,
`a → c`, `c → d` with depth bound 2, the source walker differs from the
spec-ordered variant, because the source inserts `c` into the visited set
when it first reaches it at the exact cutoff depth and therefore never
expands it, while the depth-first-check variant expands `c` on its second,
depth-1 visit. -/
theorem c6_check_order_counterexample :
    Graph.getModuleList orderFS goRoot 10 Graph.init rLine 2 ≠
      Graph.getModuleListDepthFirst orderFS goRoot 10 Graph.init rLine 2 := by
  decide

/-- C6 (amended): the two modes order the checks differently: tree mode
checks depth-exhaustion first and emits the identity as a leaf line at the
cutoff (regardless of the visited set), while graph mode checks
cycle-membership first — returning unchanged on a visited identity whatever
the depth — and at the cutoff inserts the fresh identity into the visited
set, emitting nothing. -/
theorem c6_check_order_amended :
    (∀ (fs : FS) (gopath : Str) (fuel : Nat) (st : Tree.TreeState) (m indent : Str),
      Tree.getModuleList fs gopath (fuel + 1) st m indent 0 = Tree.writeLine st indent m) ∧
    (∀ (fs : FS) (gopath : Str) (fuel : Nat) (st : Graph.GraphState) (m : Str) (d : Int),
      m ∈ st.cache → Graph.getModuleList fs gopath (fuel + 1) st m d = st) ∧
    (∀ (fs : FS) (gopath : Str) (fuel : Nat) (st : Graph.GraphState) (m : Str),
      m ∉ st.cache → Graph.getModuleList fs gopath (fuel + 1) st m 0 =
        { st with cache := st.cache ++ [m] }) :=
  ⟨fun fs gp fuel st m ind => Tree.step_depth_tree fs gp fuel st m ind,
   fun fs gp fuel st m d hm => Graph.step_cached fs gp fuel st m d hm,
   fun fs gp fuel st m hm => Graph.step_depth fs gp fuel st m hm⟩

/-- Witness for the amended C6 at concrete inputs: a visited identity is
returned unchanged at positive depth, and a fresh identity at the cutoff is
only marked visited. -/
theorem c6_check_order_amended_witness :
    Graph.getModuleList cycleFS goRoot 1 ⟨[], [], [], [bLine]⟩ bLine 5 =
      (⟨[], [], [], [bLine]⟩ : Graph.GraphState) ∧
    Graph.getModuleList cycleFS goRoot 1 Graph.init cLine 0 =
      { Graph.init with cache := Graph.init.cache ++ [cLine] } :=
  ⟨c6_check_order_amended.2.1 cycleFS goRoot 0 ⟨[], [], [], [bLine]⟩ bLine 5 (by decide),
   c6_check_order_amended.2.2 cycleFS goRoot 0 Graph.init cLine (by decide)⟩

/-- C9 (counterexample): `x v1.0.0` is located (its flat source path stats
fine) but its manifest is unreadable, so it is visited with an empty
recorded dependency set — yet the final `packages` map has no key for it at
all, instead of the empty list the claim describes, and consequently no
flush diagnostic is ever emitted for it. -/
theorem c9_empty_requirer_counterexample :
    Graph.getModuleList unreadableFS goRoot 5 Graph.init rLine (-1) =
      (⟨[(rLine, [0])], [(xLine, 0)], [], [rLine, xLine]⟩ : Graph.GraphState) ∧
    lookupA (Graph.getModuleList unreadableFS goRoot 5 Graph.init rLine (-1)).packages
      xLine = none ∧
    constructFilePath unreadableFS goRoot (escapeCapitalsInModuleName xLine) =
      some "/go/src/x".data ∧
    Graph.flushDiagnostics (Graph.getModuleList unreadableFS goRoot 5 Graph.init rLine (-1))
      = [] :=
  ⟨by decide, by decide, by decide, by decide⟩

/-- C9 (amended): a requirer with an empty recorded dependency set never
appears in `packages` — an entry is created only together with its first
recorded edge, so every entry of a reachable state is nonempty and the
flush-time empty-set diagnostic is unreachable. -/
theorem c9_empty_requirer_absent :
    (∀ (fs : FS) (gopath : Str) (fuel : Nat) (st : Graph.GraphState) (m : Str) (d : Int),
      (∀ e ∈ st.packages, e.2 ≠ []) →
      ∀ e ∈ (Graph.getModuleList fs gopath fuel st m d).packages, e.2 ≠ []) ∧
    (∀ st : Graph.GraphState, (∀ e ∈ st.packages, e.2 ≠ []) →
      Graph.flushDiagnostics st = []) := by
  constructor
  · intro fs gopath fuel st m d h
    exact Graph.walk_preserves fs gopath (fun s => ∀ e ∈ s.packages, e.2 ≠ [])
      (fun s m h' _ => h') (fun s m h' => h')
      (fun s m line h' =>
        Graph.addPkgIndex_nonempty s.packages m (Graph.assignIndex s.indexes line).1 h')
      fuel st m d h
  · exact fun st h => Graph.flushDiagnostics_eq_nil st h

/-- Witness for the amended C9: after the run on the unreadable-manifest
environment every package entry is nonempty and the flush diagnostic list is
empty. -/
theorem c9_empty_requirer_absent_witness :
    (∀ e ∈ (Graph.getModuleList unreadableFS goRoot 5 Graph.init rLine (-1)).packages,
      e.2 ≠ []) ∧
    Graph.flushDiagnostics (Graph.getModuleList unreadableFS goRoot 5 Graph.init rLine (-1))
      = [] :=
  ⟨c9_empty_requirer_absent.1 unreadableFS goRoot 5 Graph.init rLine (-1) (by decide),
   c9_empty_requirer_absent.2 _
     (c9_empty_requirer_absent.1 unreadableFS goRoot 5 Graph.init rLine (-1) (by decide))⟩

/-- C2: the deduplication table stays well formed through every walk — the
assigned indices are exactly 0, 1, 2, … in first-seen order with no identity
assigned twice — and existing assignments are never revisited (the table only
grows by appending); on a well-formed table the `indexes` array `Flush`
builds holds at position `i` exactly the identity assigned index `i`; and on
the diamond `a → b, c`, `b → d`, `c → d` the identity `d v1.0.0` receives the
single index 1, referenced from both `b`'s and `c`'s edge lists. -/
theorem c2_index_once_first_seen :
    (∀ (fs : FS) (gopath : Str) (fuel : Nat) (st : Graph.GraphState) (m : Str) (d : Int),
      Graph.IndexesWF st.indexes →
      Graph.IndexesWF (Graph.getModuleList fs gopath fuel st m d).indexes) ∧
    (∀ (fs : FS) (gopath : Str) (fuel : Nat) (st : Graph.GraphState) (m : Str) (d : Int),
      st.indexes <+: (Graph.getModuleList fs gopath fuel st m d).indexes) ∧
    (∀ st : Graph.GraphState, Graph.IndexesWF st.indexes →
      Graph.flushIndexes st = st.indexes.map Prod.fst) ∧
    Graph.getModuleList diamondFS goRoot 10 Graph.init aLine (-1) =
      (⟨[(aLine, [0, 2]), (bLine, [1]), (cLine, [1])],
        [(bLine, 0), (dLine, 1), (cLine, 2)], [],
        [aLine, bLine, dLine, cLine]⟩ : Graph.GraphState) ∧
    lookupA (Graph.getModuleList diamondFS goRoot 10 Graph.init aLine (-1)).indexes
      dLine = some 1 ∧
    lookupA (Graph.getModuleList diamondFS goRoot 10 Graph.init aLine (-1)).packages
      bLine = some [1] ∧
    lookupA (Graph.getModuleList diamondFS goRoot 10 Graph.init aLine (-1)).packages
      cLine = some [1] := by
  refine ⟨?_, ?_, ?_, by decide, by decide, by decide, by decide⟩
  · intro fs gopath fuel st m d h
    exact Graph.walk_preserves fs gopath (fun s => Graph.IndexesWF s.indexes)
      (fun s m h' _ => h') (fun s m h' => h')
      (fun s m line h' => Graph.assignIndex_wf s.indexes line h')
      fuel st m d h
  · intro fs gopath fuel st m d
    exact Graph.walk_preserves fs gopath (fun s => st.indexes <+: s.indexes)
      (fun s m h' _ => h') (fun s m h' => h')
      (fun s m line h' => h'.trans (Graph.assignIndex_prefix s.indexes line))
      fuel st m d (List.prefix_refl st.indexes)
  · exact fun st h => Graph.flushIndexes_eq st h

/-- Witness for C2: the diamond run's table is well formed and its flush
array is the key list in assignment order. -/
theorem c2_index_once_first_seen_witness :
    Graph.IndexesWF (Graph.getModuleList diamondFS goRoot 10 Graph.init aLine (-1)).indexes ∧
    Graph.flushIndexes (Graph.getModuleList diamondFS goRoot 10 Graph.init aLine (-1)) =
      (Graph.getModuleList diamondFS goRoot 10 Graph.init aLine (-1)).indexes.map
        Prod.fst :=
  ⟨c2_index_once_first_seen.1 diamondFS goRoot 10 Graph.init aLine (-1)
      ⟨rfl, List.nodup_nil⟩,
   c2_index_once_first_seen.2.2.1 _
     (c2_index_once_first_seen.1 diamondFS goRoot 10 Graph.init aLine (-1)
       ⟨rfl, List.nodup_nil⟩)⟩

/-- C3: on every negative depth — in particular the sentinel -1 and
everything reached from it by the per-call decrement — both walkers behave
exactly like their depth-free variants, so the depth-exhaustion branch is
never taken at any recursion level; and a 50-module chain walked with depth
-1 is visited in full. -/
theorem c3_unlimited_sentinel_stable :
    (∀ (fs : FS) (gopath : Str) (fuel : Nat) (st : Graph.GraphState) (m : Str) (d : Int),
      d < 0 → Graph.getModuleList fs gopath fuel st m d =
        Graph.getModuleListUnlimited fs gopath fuel st m) ∧
    (∀ (fs : FS) (gopath : Str) (fuel : Nat) (st : Tree.TreeState) (m indent : Str) (d : Int),
      d < 0 → Tree.getModuleList fs gopath fuel st m indent d =
        Tree.getModuleListUnlimited fs gopath fuel st m indent) ∧
    (Graph.getModuleList chain50FS goRoot 51 Graph.init (chainLine 1) (-1)).cache =
      (List.range 50).map (fun i => chainLine (i + 1)) := by
  refine ⟨?_, ?_, ?_⟩
  · exact fun fs gopath fuel st m d hd =>
      Graph.negative_depth_eq_unlimited fs gopath fuel st m d hd
  · exact fun fs gopath fuel st m indent d hd =>
      Tree.negative_depth_eq_unlimited_tree fs gopath fuel st m indent d hd
  · set_option maxRecDepth 10000 in decide

/-- Witness for C3: at depth -1 the walk over the cyclic environment equals
the depth-free walk. -/
theorem c3_unlimited_sentinel_stable_witness :
    Graph.getModuleList cycleFS goRoot 5 Graph.init bLine (-1) =
      Graph.getModuleListUnlimited cycleFS goRoot 5 Graph.init bLine ∧
    Tree.getModuleList cycleFS goRoot 5 Tree.init bLine [] (-1) =
      Tree.getModuleListUnlimited cycleFS goRoot 5 Tree.init bLine [] :=
  ⟨c3_unlimited_sentinel_stable.1 cycleFS goRoot 5 Graph.init bLine (-1) (by decide),
   c3_unlimited_sentinel_stable.2.1 cycleFS goRoot 5 Tree.init bLine [] (-1) (by decide)⟩

/-- C4: with depth 1 on the chain `a → b → c` the graph walker records the
edge `a → b` but never expands `b` (no `b → c` edge, `c` unvisited); and for
every depth of at least 2 the budget is passed downward decremented by
exactly 1 per call, so `b` is expanded and `c` reached with one unit less at
each level, the result stabilizing once the chain is exhausted. -/
theorem c4_depth_budget :
    Graph.getModuleList chain3FS goRoot 10 Graph.init aLine 1 =
      (⟨[(aLine, [0])], [(bLine, 0)], [], [aLine, bLine]⟩ : Graph.GraphState) ∧
    (∀ d : Int, 2 ≤ d → ∀ f : Nat,
      Graph.getModuleList chain3FS goRoot (f + 4) Graph.init aLine d =
        (⟨[(aLine, [0]), (bLine, [1])], [(bLine, 0), (cLine, 1)], [],
          [aLine, bLine, cLine]⟩ : Graph.GraphState)) := by
  refine ⟨by decide, ?_⟩
  intro d hd f
  have hd0 : d ≠ 0 := by omega
  have hd1 : d - 1 ≠ 0 := by omega
  have hpa : constructFilePath chain3FS goRoot (escapeCapitalsInModuleName aLine) =
      some "/go/src/a".data := by decide
  have hfa : chain3FS.manifest (joinPath ["/go/src/a".data, "go.mod".data]) =
      some ⟨[("b".data, vTok)]⟩ := by decide
  show Graph.getModuleList chain3FS goRoot ((f + 3) + 1) Graph.init aLine d = _
  rw [Graph.step_expand chain3FS goRoot (f + 3) Graph.init aLine d "/go/src/a".data
    ⟨[("b".data, vTok)]⟩ (by decide) hd0 hpa hfa]
  simp only [List.foldl_cons, List.foldl_nil]
  have e1 : mkLine ("b".data, vTok) = bLine := by decide
  rw [e1]
  have e2 : Graph.recordEdge { Graph.init with cache := Graph.init.cache ++ [aLine] }
      aLine bLine =
      (⟨[(aLine, [0])], [(bLine, 0)], [], [aLine]⟩ : Graph.GraphState) := by decide
  rw [e2]
  have hpb : constructFilePath chain3FS goRoot (escapeCapitalsInModuleName bLine) =
      some "/go/src/b".data := by decide
  have hfb : chain3FS.manifest (joinPath ["/go/src/b".data, "go.mod".data]) =
      some ⟨[("c".data, vTok)]⟩ := by decide
  show Graph.getModuleList chain3FS goRoot ((f + 2) + 1)
    (⟨[(aLine, [0])], [(bLine, 0)], [], [aLine]⟩ : Graph.GraphState) bLine (d - 1) = _
  rw [Graph.step_expand chain3FS goRoot (f + 2)
    (⟨[(aLine, [0])], [(bLine, 0)], [], [aLine]⟩ : Graph.GraphState) bLine (d - 1)
    "/go/src/b".data ⟨[("c".data, vTok)]⟩ (by decide) hd1 hpb hfb]
  simp only [List.foldl_cons, List.foldl_nil]
  have e3 : mkLine ("c".data, vTok) = cLine := by decide
  rw [e3]
  have e4 : Graph.recordEdge
      { (⟨[(aLine, [0])], [(bLine, 0)], [], [aLine]⟩ : Graph.GraphState) with
        cache := (⟨[(aLine, [0])], [(bLine, 0)], [], [aLine]⟩ : Graph.GraphState).cache
          ++ [bLine] }
      bLine cLine =
      (⟨[(aLine, [0]), (bLine, [1])], [(bLine, 0), (cLine, 1)], [],
        [aLine, bLine]⟩ : Graph.GraphState) := by decide
  rw [e4]
  by_cases h2 : d - 1 - 1 = 0
  · rw [h2]
    show Graph.getModuleList chain3FS goRoot ((f + 1) + 1)
      (⟨[(aLine, [0]), (bLine, [1])], [(bLine, 0), (cLine, 1)], [],
        [aLine, bLine]⟩ : Graph.GraphState) cLine 0 = _
    rw [Graph.step_depth chain3FS goRoot (f + 1)
      (⟨[(aLine, [0]), (bLine, [1])], [(bLine, 0), (cLine, 1)], [],
        [aLine, bLine]⟩ : Graph.GraphState) cLine (by decide)]
    decide
  · have hpc : constructFilePath chain3FS goRoot (escapeCapitalsInModuleName cLine) =
        some "/go/src/c".data := by decide
    have hfc : chain3FS.manifest (joinPath ["/go/src/c".data, "go.mod".data]) =
        some (⟨[]⟩ : Manifest) := by decide
    show Graph.getModuleList chain3FS goRoot ((f + 1) + 1)
      (⟨[(aLine, [0]), (bLine, [1])], [(bLine, 0), (cLine, 1)], [],
        [aLine, bLine]⟩ : Graph.GraphState) cLine (d - 1 - 1) = _
    rw [Graph.step_expand chain3FS goRoot (f + 1)
      (⟨[(aLine, [0]), (bLine, [1])], [(bLine, 0), (cLine, 1)], [],
        [aLine, bLine]⟩ : Graph.GraphState) cLine (d - 1 - 1)
      "/go/src/c".data (⟨[]⟩ : Manifest) (by decide) h2 hpc hfc]
    simp only [List.foldl_nil]
    decide

/-- Witness for C4: the depth-2 run on the chain, obtained from the general
bound. -/
theorem c4_depth_budget_witness :
    Graph.getModuleList chain3FS goRoot 4 Graph.init aLine 2 =
      (⟨[(aLine, [0]), (bLine, [1])], [(bLine, 0), (cLine, 1)], [],
        [aLine, bLine, cLine]⟩ : Graph.GraphState) :=
  c4_depth_budget.2 2 (by omega) 0

/-- C1: both walkers keep the visited set duplicate-free — an identity is
inserted at most once per run, before any recursive expansion — and on the
cyclic environment `b v1.0.0 → c v1.0.0 → b v1.0.0` the graph walk
terminates (the result is the same for every sufficient recursion bound) and
visits each of the two identities exactly once, for the unlimited sentinel
-1 and every positive depth alike; the tree walk at the unlimited depth does
the same, rendering each identity once. -/
theorem c1_cycle_visit_once :
    (∀ (fs : FS) (gopath : Str) (fuel : Nat) (st : Graph.GraphState) (m : Str) (d : Int),
      st.cache.Nodup → (Graph.getModuleList fs gopath fuel st m d).cache.Nodup) ∧
    (∀ (fs : FS) (gopath : Str) (fuel : Nat) (st : Tree.TreeState) (m indent : Str)
      (d : Int),
      st.cache.Nodup → (Tree.getModuleList fs gopath fuel st m indent d).cache.Nodup) ∧
    (∀ d : Int, (d = -1 ∨ 1 ≤ d) → ∀ f : Nat,
      (Graph.getModuleList cycleFS goRoot (f + 3) Graph.init bLine d).cache =
        [bLine, cLine]) ∧
    (∀ f : Nat,
      Tree.getModuleList cycleFS goRoot (f + 3) Tree.init bLine [] (-1) =
        (⟨[bLine, cLine], [bLine, cLine], []⟩ : Tree.TreeState)) := by
  refine ⟨?_, ?_, ?_, ?_⟩
  · intro fs gopath fuel st m d h
    refine Graph.walk_preserves fs gopath (fun s => s.cache.Nodup) ?_
      (fun s m h' => h') (fun s m line h' => h') fuel st m d h
    intro s m h' hm
    show (s.cache ++ [m]).Nodup
    simp [List.nodup_append, h', hm]
  · intro fs gopath fuel st m indent d h
    refine Tree.walk_preserves_tree fs gopath (fun s => s.cache.Nodup) ?_
      (fun s ind line h' => h') (fun s line h' => h') fuel st m indent d h
    intro s m h' hm
    show (s.cache ++ [m]).Nodup
    simp [List.nodup_append, h', hm]
  · intro d hd f
    have hd0 : d ≠ 0 := by omega
    have hpb : constructFilePath cycleFS goRoot (escapeCapitalsInModuleName bLine) =
        some "/go/src/b".data := by decide
    have hfb : cycleFS.manifest (joinPath ["/go/src/b".data, "go.mod".data]) =
        some ⟨[("c".data, vTok)]⟩ := by decide
    show (Graph.getModuleList cycleFS goRoot ((f + 2) + 1) Graph.init bLine d).cache = _
    rw [Graph.step_expand cycleFS goRoot (f + 2) Graph.init bLine d "/go/src/b".data
      ⟨[("c".data, vTok)]⟩ (by decide) hd0 hpb hfb]
    simp only [List.foldl_cons, List.foldl_nil]
    have e1 : mkLine ("c".data, vTok) = cLine := by decide
    rw [e1]
    have e2 : Graph.recordEdge { Graph.init with cache := Graph.init.cache ++ [bLine] }
        bLine cLine =
        (⟨[(bLine, [0])], [(cLine, 0)], [], [bLine]⟩ : Graph.GraphState) := by decide
    rw [e2]
    by_cases h1 : d - 1 = 0
    · rw [h1]
      show (Graph.getModuleList cycleFS goRoot ((f + 1) + 1)
        (⟨[(bLine, [0])], [(cLine, 0)], [], [bLine]⟩ : Graph.GraphState) cLine 0).cache = _
      rw [Graph.step_depth cycleFS goRoot (f + 1)
        (⟨[(bLine, [0])], [(cLine, 0)], [], [bLine]⟩ : Graph.GraphState) cLine (by decide)]
      decide
    · have hpc : constructFilePath cycleFS goRoot (escapeCapitalsInModuleName cLine) =
          some "/go/src/c".data := by decide
      have hfc : cycleFS.manifest (joinPath ["/go/src/c".data, "go.mod".data]) =
          some ⟨[("b".data, vTok)]⟩ := by decide
      show (Graph.getModuleList cycleFS goRoot ((f + 1) + 1)
        (⟨[(bLine, [0])], [(cLine, 0)], [], [bLine]⟩ : Graph.GraphState) cLine
        (d - 1)).cache = _
      rw [Graph.step_expand cycleFS goRoot (f + 1)
        (⟨[(bLine, [0])], [(cLine, 0)], [], [bLine]⟩ : Graph.GraphState) cLine (d - 1)
        "/go/src/c".data ⟨[("b".data, vTok)]⟩ (by decide) h1 hpc hfc]
      simp only [List.foldl_cons, List.foldl_nil]
      have e3 : mkLine ("b".data, vTok) = bLine := by decide
      rw [e3]
      have e4 : Graph.recordEdge
          { (⟨[(bLine, [0])], [(cLine, 0)], [], [bLine]⟩ : Graph.GraphState) with
            cache := (⟨[(bLine, [0])], [(cLine, 0)], [], [bLine]⟩ :
              Graph.GraphState).cache ++ [cLine] }
          cLine bLine =
          (⟨[(bLine, [0]), (cLine, [1])], [(cLine, 0), (bLine, 1)], [],
            [bLine, cLine]⟩ : Graph.GraphState) := by decide
      rw [e4]
      rw [Graph.step_cached cycleFS goRoot f
        (⟨[(bLine, [0]), (cLine, [1])], [(cLine, 0), (bLine, 1)], [],
          [bLine, cLine]⟩ : Graph.GraphState) bLine (d - 1 - 1) (by decide)]
  · intro f
    have hd1 : (-1 : Int) ≠ 0 := by decide
    have hpb : constructFilePath cycleFS goRoot (escapeCapitalsInModuleName bLine) =
        some "/go/src/b".data := by decide
    have hfb : cycleFS.manifest (joinPath ["/go/src/b".data, "go.mod".data]) =
        some ⟨[("c".data, vTok)]⟩ := by decide
    show Tree.getModuleList cycleFS goRoot ((f + 2) + 1) Tree.init bLine [] (-1) = _
    rw [Tree.step_expand_tree cycleFS goRoot (f + 2) Tree.init bLine [] (-1) "/go/src/b".data
      ⟨[("c".data, vTok)]⟩ hd1 (by decide) hpb hfb]
    simp only [List.foldl_cons, List.foldl_nil, List.nil_append]
    have e1 : mkLine ("c".data, vTok) = cLine := by decide
    rw [e1]
    have e2 : Tree.writeLine { Tree.init with cache := Tree.init.cache ++ [bLine] }
        [] bLine = (⟨[bLine], [bLine], []⟩ : Tree.TreeState) := by decide
    rw [e2]
    have hd2 : (-1 - 1 : Int) ≠ 0 := by decide
    have hpc : constructFilePath cycleFS goRoot (escapeCapitalsInModuleName cLine) =
        some "/go/src/c".data := by decide
    have hfc : cycleFS.manifest (joinPath ["/go/src/c".data, "go.mod".data]) =
        some ⟨[("b".data, vTok)]⟩ := by decide
    show Tree.getModuleList cycleFS goRoot ((f + 1) + 1)
      (⟨[bLine], [bLine], []⟩ : Tree.TreeState) cLine "  ".data (-1 - 1) = _
    rw [Tree.step_expand_tree cycleFS goRoot (f + 1)
      (⟨[bLine], [bLine], []⟩ : Tree.TreeState) cLine "  ".data (-1 - 1)
      "/go/src/c".data ⟨[("b".data, vTok)]⟩ hd2 (by decide) hpc hfc]
    simp only [List.foldl_cons, List.foldl_nil]
    have e3 : mkLine ("b".data, vTok) = bLine := by decide
    rw [e3]
    have e4 : Tree.writeLine
        { (⟨[bLine], [bLine], []⟩ : Tree.TreeState) with
          cache := (⟨[bLine], [bLine], []⟩ : Tree.TreeState).cache ++ [cLine] }
        "  ".data cLine = (⟨[bLine, cLine], [bLine, cLine], []⟩ : Tree.TreeState) := by
      decide
    rw [e4]
    rw [Tree.step_cached_tree cycleFS goRoot f
      (⟨[bLine, cLine], [bLine, cLine], []⟩ : Tree.TreeState) bLine
      ("  ".data ++ "  ".data) (-1 - 1 - 1) (by decide) (by decide)]

/-- Witness for C1: concrete instances of the four conjuncts at the cyclic
environment, with the sentinel depth and the smallest sufficient recursion
bound. -/
theorem c1_cycle_visit_once_witness :
    (Graph.getModuleList cycleFS goRoot 5 Graph.init bLine (-1)).cache.Nodup ∧
    (Tree.getModuleList cycleFS goRoot 5 Tree.init bLine [] (-1)).cache.Nodup ∧
    (Graph.getModuleList cycleFS goRoot 3 Graph.init bLine (-1)).cache =
      [bLine, cLine] ∧
    Tree.getModuleList cycleFS goRoot 3 Tree.init bLine [] (-1) =
      (⟨[bLine, cLine], [bLine, cLine], []⟩ : Tree.TreeState) :=
  ⟨c1_cycle_visit_once.1 cycleFS goRoot 5 Graph.init bLine (-1) List.nodup_nil,
   c1_cycle_visit_once.2.1 cycleFS goRoot 5 Tree.init bLine [] (-1) List.nodup_nil,
   c1_cycle_visit_once.2.2.1 (-1) (Or.inl rfl) 0,
   c1_cycle_visit_once.2.2.2 0⟩

